import Mathlib

deriving instance DecidableEq for Except

/-!
Verification of the schema-migration engine in `src/database.rs` (pgtools).

The development shallowly embeds the parts of `database.rs` the claims are
about:

* semantic versions with the ordering and the textual grammar of the `semver`
  crate (`Version::parse`, `Ord for Version`), including the crate's total
  order on pre-release and build-metadata identifiers;
* the migration-resolution scan and sort of `Database::migrate_data`
  (lines 236-378), the application loop with its version bookkeeping, and the
  surrounding operations `migrate`, `update`, `check_schema_version`,
  `set_schema_version`, `drop_api_schema`;
* the process contract of `Database::exec` (lines 148-186);
* the catalog query issued by `Database::schema_version` (lines 405-423).

External effects (the database, the filesystem, child processes) are modelled
by an explicit environment `Env` fixing each call's outcome, and an explicit
state `St` holding the persisted version marker, the api schema's presence and
a trace of the effects performed.
-/

/-! ## Ordering groundwork

`Ordering.then`-style lexicographic comparators, with the laws needed to
reason about sorting: symmetry under `swap`, transitivity of `≠ .gt`, and
(where it holds) `= .eq` iff equality.
-/

def cmpThen {α : Type} (c₁ c₂ : α → α → Ordering) (a b : α) : Ordering :=
  (c₁ a b).then (c₂ a b)

def onCmp {α β : Type} (f : α → β) (c : β → β → Ordering) (a b : α) : Ordering :=
  c (f a) (f b)

def natCmp (a b : Nat) : Ordering :=
  if a < b then .lt else if a = b then .eq else .gt

def listCmp {α : Type} (c : α → α → Ordering) : List α → List α → Ordering
  | [], [] => .eq
  | [], _ :: _ => .lt
  | _ :: _, [] => .gt
  | a :: as, b :: bs => (c a b).then (listCmp c as bs)

/-- The two laws every comparator in this development satisfies. -/
structure CmpLaws {α : Type} (c : α → α → Ordering) : Prop where
  symm : ∀ a b, (c a b).swap = c b a
  le_trans : ∀ {a b d}, c a b ≠ .gt → c b d ≠ .gt → c a d ≠ .gt

theorem ordering_swap_then (o₁ o₂ : Ordering) :
    (o₁.then o₂).swap = o₁.swap.then o₂.swap := by
  cases o₁ <;> rfl

theorem ordering_then_ne_gt {o₁ o₂ : Ordering} :
    o₁.then o₂ ≠ .gt ↔ o₁ = .lt ∨ (o₁ = .eq ∧ o₂ ≠ .gt) := by
  cases o₁ <;> cases o₂ <;> simp [Ordering.then]

theorem ordering_then_eq_eq {o₁ o₂ : Ordering} :
    o₁.then o₂ = .eq ↔ o₁ = .eq ∧ o₂ = .eq := by
  cases o₁ <;> cases o₂ <;> simp [Ordering.then]

namespace CmpLaws

variable {α : Type} {c : α → α → Ordering}

theorem refl (h : CmpLaws c) (a : α) : c a a = .eq := by
  have hs := h.symm a a
  cases hv : c a a
  · rw [hv] at hs; exact absurd hs (by simp [Ordering.swap])
  · rfl
  · rw [hv] at hs; exact absurd hs (by simp [Ordering.swap])

theorem eq_symm (h : CmpLaws c) {a b : α} (hab : c a b = .eq) : c b a = .eq := by
  have hs := h.symm a b
  rw [hab] at hs
  simpa [Ordering.swap] using hs.symm

theorem lt_ne_gt {o : Ordering} (ho : o = .lt) : o ≠ .gt := by simp [ho]

theorem eq_ne_gt {o : Ordering} (ho : o = .eq) : o ≠ .gt := by simp [ho]

theorem swap_ne_gt (h : CmpLaws c) {a b : α} (hab : c a b ≠ .gt) : c b a ≠ .lt := by
  intro hba
  have := h.symm b a
  rw [hba] at this
  exact hab (by simpa [Ordering.swap] using this.symm)

theorem eq_trans (h : CmpLaws c) {a b d : α}
    (h₁ : c a b = .eq) (h₂ : c b d = .eq) : c a d = .eq := by
  have hne : c a d ≠ .gt := h.le_trans (eq_ne_gt h₁) (eq_ne_gt h₂)
  have hne' : c d a ≠ .gt :=
    h.le_trans (eq_ne_gt (eq_symm h h₂)) (eq_ne_gt (eq_symm h h₁))
  have := swap_ne_gt h hne'
  cases hv : c a d
  · exact absurd hv this
  · rfl
  · exact absurd hv hne

theorem lt_of_lt_eq (h : CmpLaws c) {a b d : α}
    (h₁ : c a b = .lt) (h₂ : c b d = .eq) : c a d = .lt := by
  have hne : c a d ≠ .gt := h.le_trans (lt_ne_gt h₁) (eq_ne_gt h₂)
  cases hv : c a d
  · rfl
  · have : c a b = .eq := eq_trans h hv (eq_symm h h₂)
    rw [h₁] at this
    exact absurd this (by simp)
  · exact absurd hv hne

theorem lt_of_eq_lt (h : CmpLaws c) {a b d : α}
    (h₁ : c a b = .eq) (h₂ : c b d = .lt) : c a d = .lt := by
  have hne : c a d ≠ .gt := h.le_trans (eq_ne_gt h₁) (lt_ne_gt h₂)
  cases hv : c a d
  · rfl
  · have : c b d = .eq := eq_trans h (eq_symm h h₁) hv
    rw [h₂] at this
    exact absurd this (by simp)
  · exact absurd hv hne

theorem lt_trans (h : CmpLaws c) {a b d : α}
    (h₁ : c a b = .lt) (h₂ : c b d = .lt) : c a d = .lt := by
  have hne : c a d ≠ .gt := h.le_trans (lt_ne_gt h₁) (lt_ne_gt h₂)
  cases hv : c a d
  · rfl
  · have : c d b = .lt := lt_of_eq_lt h (eq_symm h hv) h₁
    have hgt := h.symm d b
    rw [this] at hgt
    simp [Ordering.swap] at hgt
    exact absurd h₂ (by simp [← hgt])
  · exact absurd hv hne

theorem total (h : CmpLaws c) (a b : α) : c a b ≠ .gt ∨ c b a ≠ .gt := by
  cases hv : c a b
  · exact .inl (by simp [hv])
  · exact .inl (by simp [hv])
  · right
    have := h.symm a b
    rw [hv] at this
    simp [Ordering.swap] at this
    simp [← this]

end CmpLaws

theorem cmpThen_laws {α : Type} {c₁ c₂ : α → α → Ordering}
    (h₁ : CmpLaws c₁) (h₂ : CmpLaws c₂) : CmpLaws (cmpThen c₁ c₂) := by
  constructor
  · intro a b
    simp only [cmpThen, ordering_swap_then, h₁.symm, h₂.symm]
  · intro a b d hab hbd
    simp only [cmpThen, ordering_then_ne_gt] at hab hbd ⊢
    rcases hab with hab | ⟨hab, hab'⟩ <;> rcases hbd with hbd | ⟨hbd, hbd'⟩
    · exact .inl (h₁.lt_trans hab hbd)
    · exact .inl (h₁.lt_of_lt_eq hab hbd)
    · exact .inl (h₁.lt_of_eq_lt hab hbd)
    · exact .inr ⟨h₁.eq_trans hab hbd, h₂.le_trans hab' hbd'⟩

theorem cmpThen_eq_iff {α : Type} {c₁ c₂ : α → α → Ordering} {a b : α} :
    cmpThen c₁ c₂ a b = .eq ↔ c₁ a b = .eq ∧ c₂ a b = .eq := by
  simp [cmpThen, ordering_then_eq_eq]

theorem onCmp_laws {α β : Type} (f : α → β) {c : β → β → Ordering}
    (h : CmpLaws c) : CmpLaws (onCmp f c) := by
  constructor
  · intro a b; exact h.symm (f a) (f b)
  · intro a b d hab hbd; exact h.le_trans hab hbd

theorem natCmp_laws : CmpLaws natCmp := by
  constructor
  · intro a b
    unfold natCmp
    rcases Nat.lt_trichotomy a b with h | h | h
    · simp [h, Nat.lt_asymm h, Nat.ne_of_gt h, Ordering.swap]
    · simp [h, Ordering.swap]
    · simp [h, Nat.lt_asymm h, Nat.ne_of_lt h, Nat.lt_irrefl, Ordering.swap,
        Nat.ne_of_gt h]
  · intro a b d hab hbd
    unfold natCmp at *
    split at hab
    · next h1 =>
      split <;> split at hbd <;> try simp_all
      all_goals omega
    · split at hab
      · next h2 =>
        subst h2
        exact hbd
      · simp at hab

theorem natCmp_eq_iff {a b : Nat} : natCmp a b = .eq ↔ a = b := by
  unfold natCmp
  rcases Nat.lt_trichotomy a b with h | h | h
  · simp [h, Nat.ne_of_lt h]
  · simp [h]
  · simp [Nat.lt_asymm h, Nat.ne_of_gt h]

def charCmp (a b : Char) : Ordering := natCmp a.toNat b.toNat

theorem charCmp_laws : CmpLaws charCmp := onCmp_laws Char.toNat natCmp_laws

theorem charCmp_eq_iff {a b : Char} : charCmp a b = .eq ↔ a = b := by
  unfold charCmp
  rw [natCmp_eq_iff]
  constructor
  · intro h
    exact Char.ext (UInt32.toNat.inj h)
  · intro h; rw [h]

theorem listCmp_laws {α : Type} {c : α → α → Ordering} (h : CmpLaws c) :
    CmpLaws (listCmp c) := by
  constructor
  · intro a
    induction a with
    | nil => intro b; cases b <;> rfl
    | cons x xs ih =>
      intro b
      cases b with
      | nil => rfl
      | cons y ys =>
        show ((c x y).then (listCmp c xs ys)).swap = (c y x).then (listCmp c ys xs)
        rw [ordering_swap_then, h.symm, ih]
  · intro a
    induction a with
    | nil =>
      intro b d hab hbd
      cases b <;> cases d <;> simp_all [listCmp]
    | cons x xs ih =>
      intro b d hab hbd
      cases b with
      | nil => simp [listCmp] at hab
      | cons y ys =>
        cases d with
        | nil => simp [listCmp] at hbd
        | cons z zs =>
          show (c x z).then (listCmp c xs zs) ≠ .gt
          have hab' : (c x y).then (listCmp c xs ys) ≠ .gt := hab
          have hbd' : (c y z).then (listCmp c ys zs) ≠ .gt := hbd
          rw [ordering_then_ne_gt] at hab' hbd' ⊢
          rcases hab' with h1 | ⟨h1, h1'⟩ <;> rcases hbd' with h2 | ⟨h2, h2'⟩
          · exact .inl (h.lt_trans h1 h2)
          · exact .inl (h.lt_of_lt_eq h1 h2)
          · exact .inl (h.lt_of_eq_lt h1 h2)
          · exact .inr ⟨h.eq_trans h1 h2, ih h1' h2'⟩

theorem listCmp_eq_iff {α : Type} {c : α → α → Ordering}
    (hc : ∀ a b : α, c a b = .eq ↔ a = b) :
    ∀ {as bs : List α}, listCmp c as bs = .eq ↔ as = bs := by
  intro as
  induction as with
  | nil => intro bs; cases bs <;> simp [listCmp]
  | cons x xs ih =>
    intro bs
    cases bs with
    | nil => simp [listCmp]
    | cons y ys =>
      show (c x y).then (listCmp c xs ys) = .eq ↔ _
      rw [ordering_then_eq_eq, hc, ih]
      simp

/-! ## Semantic versions

`Version` mirrors `semver::Version` (src/database.rs line 4): major, minor,
patch numbers plus pre-release and build-metadata identifier lists.
`Version.cmp` mirrors the crate's `Ord` implementation: numeric components
first, then pre-release precedence (absence of a pre-release compares
greater; numeric identifiers compare numerically and below alphanumeric
ones), then build metadata as the crate's total-order tiebreaker.
-/

structure Version where
  major : Nat
  minor : Nat
  patch : Nat
  pre : List String
  build : List String
deriving DecidableEq

def allDigits (s : String) : Bool := s.data.all Char.isDigit

/-- Numeric pre-release identifiers carry no leading zeros, so the crate
compares them numerically as: length first, then lexicographically. -/
def numIdCmp : String → String → Ordering :=
  cmpThen (onCmp String.length natCmp) (onCmp String.data (listCmp charCmp))

/-- One pre-release identifier against another: numeric identifiers sort
below alphanumeric ones; two numeric ones numerically; two alphanumeric
ones lexicographically. -/
def preIdCmp (a b : String) : Ordering :=
  match allDigits a, allDigits b with
  | true, true => numIdCmp a b
  | true, false => .lt
  | false, true => .gt
  | false, false => listCmp charCmp a.data b.data

/-- Pre-release precedence: an empty pre-release (a plain release) compares
greater than any non-empty one; otherwise identifier lists compare
lexicographically, a strict prefix comparing less. -/
def preCmp (as bs : List String) : Ordering :=
  match as, bs with
  | [], [] => .eq
  | [], _ :: _ => .gt
  | _ :: _, [] => .lt
  | a :: as', b :: bs' => listCmp preIdCmp (a :: as') (b :: bs')

def dropZeros (s : String) : List Char := s.data.dropWhile (fun c => c = '0')

/-- The crate's total order on numeric build identifiers (which may carry
leading zeros): 0 < 00 < 1 < 01 < 001 < 2 < ... -/
def buildNumCmp : String → String → Ordering :=
  cmpThen (onCmp (fun s => (dropZeros s).length) natCmp)
    (cmpThen (onCmp dropZeros (listCmp charCmp)) (onCmp String.length natCmp))

def buildIdCmp (a b : String) : Ordering :=
  match allDigits a, allDigits b with
  | true, true => buildNumCmp a b
  | true, false => .lt
  | false, true => .gt
  | false, false => listCmp charCmp a.data b.data

def Version.cmp : Version → Version → Ordering :=
  cmpThen (onCmp Version.major natCmp)
    (cmpThen (onCmp Version.minor natCmp)
      (cmpThen (onCmp Version.patch natCmp)
        (cmpThen (onCmp Version.pre preCmp)
          (onCmp Version.build (listCmp buildIdCmp)))))

theorem strDataCmp_eq_iff {a b : String} :
    listCmp charCmp a.data b.data = .eq ↔ a = b := by
  rw [listCmp_eq_iff (fun a b => charCmp_eq_iff)]
  constructor
  · intro h
    cases a; cases b
    exact congrArg String.mk h
  · intro h; rw [h]

theorem numIdCmp_laws : CmpLaws numIdCmp :=
  cmpThen_laws (onCmp_laws _ natCmp_laws)
    (onCmp_laws _ (listCmp_laws charCmp_laws))

theorem numIdCmp_eq_iff {a b : String} : numIdCmp a b = .eq ↔ a = b := by
  unfold numIdCmp
  rw [cmpThen_eq_iff]
  constructor
  · intro ⟨_, h⟩
    exact strDataCmp_eq_iff.mp h
  · intro h
    subst h
    exact ⟨natCmp_eq_iff.mpr rfl, strDataCmp_eq_iff.mpr rfl⟩

theorem preIdCmp_laws : CmpLaws preIdCmp := by
  have hnum := numIdCmp_laws
  have hstr := listCmp_laws (α := Char) charCmp_laws
  constructor
  · intro a b
    unfold preIdCmp
    cases ha : allDigits a <;> cases hb : allDigits b <;> simp [Ordering.swap]
    · exact (onCmp_laws String.data hstr).symm a b
    · exact hnum.symm a b
  · intro a b d hab hbd
    unfold preIdCmp at *
    cases ha : allDigits a <;> cases hb : allDigits b <;>
      cases hd : allDigits d <;> simp [ha, hb, hd] at hab hbd ⊢
    · exact (onCmp_laws String.data hstr).le_trans (a := a) (b := b) (d := d) hab hbd
    · exact hnum.le_trans hab hbd

theorem preIdCmp_eq_iff {a b : String} : preIdCmp a b = .eq ↔ a = b := by
  unfold preIdCmp
  cases ha : allDigits a <;> cases hb : allDigits b <;> simp
  · exact strDataCmp_eq_iff
  · intro h; subst h; rw [ha] at hb; cases hb
  · intro h; subst h; rw [ha] at hb; cases hb
  · exact numIdCmp_eq_iff

theorem preCmp_laws : CmpLaws preCmp := by
  have hid := listCmp_laws preIdCmp_laws
  constructor
  · intro a b
    cases a <;> cases b <;> simp [preCmp, Ordering.swap]
    exact hid.symm _ _
  · intro a b d hab hbd
    cases a <;> cases b <;> cases d <;> simp_all [preCmp]
    exact hid.le_trans hab hbd

theorem preCmp_eq_iff {as bs : List String} : preCmp as bs = .eq ↔ as = bs := by
  cases as <;> cases bs <;> simp [preCmp]
  exact (listCmp_eq_iff (fun a b => preIdCmp_eq_iff)).trans (by simp)

theorem buildNumCmp_laws : CmpLaws buildNumCmp :=
  cmpThen_laws (onCmp_laws _ natCmp_laws)
    (cmpThen_laws (onCmp_laws _ (listCmp_laws charCmp_laws))
      (onCmp_laws _ natCmp_laws))

theorem buildNumCmp_eq_iff {a b : String} : buildNumCmp a b = .eq ↔ a = b := by
  unfold buildNumCmp
  rw [cmpThen_eq_iff, cmpThen_eq_iff]
  constructor
  · intro ⟨_, hdrop, hlen⟩
    have hdrop' : dropZeros a = dropZeros b :=
      (listCmp_eq_iff (fun a b => charCmp_eq_iff)).mp hdrop
    have hlen' : a.length = b.length := natCmp_eq_iff.mp hlen
    have hsplit := fun s : String =>
      List.takeWhile_append_dropWhile (fun c => decide (c = '0')) s.data
    have htake : ∀ s : String,
        s.data.takeWhile (fun c => decide (c = '0')) =
          List.replicate (s.data.takeWhile (fun c => decide (c = '0'))).length '0' := by
      intro s
      exact List.eq_replicate_of_mem (fun c hc => by
        have := List.mem_takeWhile_imp hc
        simpa using this)
    have hlendata : a.data.length = b.data.length := hlen'
    have hta : (a.data.takeWhile (fun c => decide (c = '0'))).length =
        (b.data.takeWhile (fun c => decide (c = '0'))).length := by
      have ha := congrArg List.length (hsplit a)
      have hb := congrArg List.length (hsplit b)
      simp only [List.length_append] at ha hb
      have hda : (dropZeros a).length = (dropZeros b).length := by
        rw [hdrop']
      simp only [dropZeros] at hda
      omega
    have : a.data = b.data := by
      have ha := (hsplit a).symm
      have hb := (hsplit b).symm
      rw [ha, hb, htake a, htake b, hta]
      show _ ++ a.data.dropWhile _ = _ ++ b.data.dropWhile _
      have : a.data.dropWhile (fun c => decide (c = '0')) =
          b.data.dropWhile (fun c => decide (c = '0')) := by
        simpa [dropZeros] using hdrop'
      rw [this]
    cases a; cases b
    exact congrArg String.mk this
  · intro h
    subst h
    exact ⟨natCmp_eq_iff.mpr rfl,
      (listCmp_eq_iff (fun a b => charCmp_eq_iff)).mpr rfl, natCmp_eq_iff.mpr rfl⟩

theorem buildIdCmp_laws : CmpLaws buildIdCmp := by
  have hnum := buildNumCmp_laws
  have hstr := listCmp_laws (α := Char) charCmp_laws
  constructor
  · intro a b
    unfold buildIdCmp
    cases ha : allDigits a <;> cases hb : allDigits b <;> simp [Ordering.swap]
    · exact (onCmp_laws String.data hstr).symm a b
    · exact hnum.symm a b
  · intro a b d hab hbd
    unfold buildIdCmp at *
    cases ha : allDigits a <;> cases hb : allDigits b <;>
      cases hd : allDigits d <;> simp [ha, hb, hd] at hab hbd ⊢
    · exact (onCmp_laws String.data hstr).le_trans (a := a) (b := b) (d := d) hab hbd
    · exact hnum.le_trans hab hbd

theorem buildIdCmp_eq_iff {a b : String} : buildIdCmp a b = .eq ↔ a = b := by
  unfold buildIdCmp
  cases ha : allDigits a <;> cases hb : allDigits b <;> simp
  · exact strDataCmp_eq_iff
  · intro h; subst h; rw [ha] at hb; cases hb
  · intro h; subst h; rw [ha] at hb; cases hb
  · exact buildNumCmp_eq_iff

theorem versionCmp_laws : CmpLaws Version.cmp :=
  cmpThen_laws (onCmp_laws _ natCmp_laws)
    (cmpThen_laws (onCmp_laws _ natCmp_laws)
      (cmpThen_laws (onCmp_laws _ natCmp_laws)
        (cmpThen_laws (onCmp_laws _ preCmp_laws)
          (onCmp_laws _ (listCmp_laws buildIdCmp_laws)))))

theorem versionCmp_eq_iff {a b : Version} : Version.cmp a b = .eq ↔ a = b := by
  unfold Version.cmp
  rw [cmpThen_eq_iff, cmpThen_eq_iff, cmpThen_eq_iff, cmpThen_eq_iff]
  unfold onCmp
  rw [natCmp_eq_iff, natCmp_eq_iff, natCmp_eq_iff, preCmp_eq_iff,
    listCmp_eq_iff (fun a b => buildIdCmp_eq_iff)]
  constructor
  · intro ⟨h1, h2, h3, h4, h5⟩
    cases a; cases b
    simp_all
  · intro h
    subst h
    exact ⟨rfl, rfl, rfl, rfl, rfl⟩

/-! ## Version display and parsing

`Version.render` mirrors `Display for semver::Version`
(`major.minor.patch[-pre][+build]`), used by the error messages of
`migrate_data` and `set_schema_version`. `Version.parse` mirrors
`semver::Version::parse`: exactly three dot-separated numeric components
without leading zeros and bounded by `u64::MAX`, an optional dash-introduced
pre-release and an optional plus-introduced build suffix, both dot-separated
lists of non-empty `[0-9A-Za-z-]` identifiers, numeric pre-release
identifiers carrying no leading zeros.
-/

def joinDot : List String → String
  | [] => ""
  | [x] => x
  | x :: y :: xs => x ++ "." ++ joinDot (y :: xs)

def Version.render (v : Version) : String :=
  toString v.major ++ "." ++ toString v.minor ++ "." ++ toString v.patch ++
    (if v.pre.isEmpty then "" else "-" ++ joinDot v.pre) ++
    (if v.build.isEmpty then "" else "+" ++ joinDot v.build)

def DEFAULT_VERSION : Version := ⟨0, 0, 0, [], []⟩

def splitOnChar (sep : Char) : List Char → List (List Char)
  | [] => [[]]
  | c :: cs =>
    match splitOnChar sep cs with
    | [] => [[]]
    | p :: ps => if c = sep then [] :: p :: ps else (c :: p) :: ps

def digitsVal (cs : List Char) : Nat :=
  cs.foldl (fun n c => n * 10 + (c.toNat - 48)) 0

def parseNum (cs : List Char) : Except String Nat :=
  if cs = [] then .error "expected a numeric version component"
  else if (cs.all Char.isDigit) = false then
    .error "unexpected character in version number"
  else if cs.length > 1 ∧ cs.head? = some '0' then
    .error "version number has a leading zero"
  else if digitsVal cs < 2 ^ 64 then .ok (digitsVal cs)
  else .error "version number exceeds u64::MAX"

def isIdentChar (c : Char) : Bool := c.isDigit || c.isAlpha || c = '-'

def checkPreId (cs : List Char) : Except String String :=
  if cs = [] then .error "empty pre-release identifier"
  else if (cs.all isIdentChar) = false then
    .error "unexpected character in pre-release identifier"
  else if (cs.all Char.isDigit) = true ∧ cs.length > 1 ∧ cs.head? = some '0' then
    .error "pre-release numeric identifier has a leading zero"
  else .ok ⟨cs⟩

def checkBuildId (cs : List Char) : Except String String :=
  if cs = [] then .error "empty build identifier"
  else if (cs.all isIdentChar) = false then
    .error "unexpected character in build identifier"
  else .ok ⟨cs⟩

def mapCheck (f : List Char → Except String String) :
    List (List Char) → Except String (List String)
  | [] => .ok []
  | c :: cs => do
    let s ← f c
    let rest ← mapCheck f cs
    .ok (s :: rest)

def parseTriple (cs : List Char) (pre build : List String) :
    Except String Version :=
  match splitOnChar '.' cs with
  | [ma, mi, pa] => do
    let major ← parseNum ma
    let minor ← parseNum mi
    let patch ← parseNum pa
    .ok ⟨major, minor, patch, pre, build⟩
  | _ => .error "expected exactly three numeric components"

def parseCore (cs : List Char) (build : List String) : Except String Version :=
  match splitOnChar '-' cs with
  | [] => .error "empty version"
  | [nums] => parseTriple nums [] build
  | nums :: r :: rest => do
    let pre ← mapCheck checkPreId
      (splitOnChar '.' (List.intercalate ['-'] (r :: rest)))
    parseTriple nums pre build

def Version.parse (s : String) : Except String Version :=
  match splitOnChar '+' s.data with
  | [] => .error "empty version"
  | [core] => parseCore core []
  | [core, b] => do
    let build ← mapCheck checkBuildId (splitOnChar '.' b)
    parseCore core build
  | _ => .error "unexpected character in build metadata"

/-- `str::trim` on the model's strings: whitespace stripped from both ends. -/
def strTrim (s : String) : String :=
  ⟨((s.data.dropWhile Char.isWhitespace).reverse.dropWhile
      Char.isWhitespace).reverse⟩

/-! ## A stable sort

`Vec::sort_by` is a stable sort; `sortBy` is the (unique) stable sort by a
total transitive boolean `le`, realized as insertion sort.
-/

def insertBy {α : Type} (le : α → α → Bool) (x : α) : List α → List α
  | [] => [x]
  | y :: ys => if le x y then x :: y :: ys else y :: insertBy le x ys

def sortBy {α : Type} (le : α → α → Bool) (l : List α) : List α :=
  l.foldr (insertBy le) []

theorem insertBy_perm {α : Type} (le : α → α → Bool) (x : α) (l : List α) :
    (insertBy le x l).Perm (x :: l) := by
  induction l with
  | nil => exact List.Perm.refl _
  | cons y ys ih =>
    unfold insertBy
    split
    · exact List.Perm.refl _
    · exact ((ih.cons y).trans (List.Perm.swap x y ys))

theorem sortBy_perm {α : Type} (le : α → α → Bool) (l : List α) :
    (sortBy le l).Perm l := by
  induction l with
  | nil => exact List.Perm.refl _
  | cons x xs ih =>
    show (insertBy le x (sortBy le xs)).Perm (x :: xs)
    exact (insertBy_perm le x (sortBy le xs)).trans (ih.cons x)

theorem insertBy_sorted {α : Type} {le : α → α → Bool}
    (htotal : ∀ a b, le a b = true ∨ le b a = true)
    (htrans : ∀ a b d, le a b = true → le b d = true → le a d = true)
    (x : α) {l : List α} (hl : l.Pairwise (fun a b => le a b = true)) :
    (insertBy le x l).Pairwise (fun a b => le a b = true) := by
  induction l with
  | nil => simp [insertBy]
  | cons y ys ih =>
    rw [List.pairwise_cons] at hl
    unfold insertBy
    split
    · next hxy =>
      rw [List.pairwise_cons]
      refine ⟨?_, List.pairwise_cons.mpr hl⟩
      intro z hz
      rcases List.mem_cons.mp hz with hz | hz
      · rw [hz]; exact hxy
      · exact htrans x y z hxy (hl.1 z hz)
    · next hxy =>
      have hyx : le y x = true := by
        rcases htotal x y with h | h
        · exact absurd h hxy
        · exact h
      rw [List.pairwise_cons]
      refine ⟨?_, ih hl.2⟩
      intro z hz
      have hm := (insertBy_perm le x ys).mem_iff.mp hz
      rcases List.mem_cons.mp hm with hz' | hz'
      · rw [hz']; exact hyx
      · exact hl.1 z hz'

theorem sortBy_sorted {α : Type} {le : α → α → Bool}
    (htotal : ∀ a b, le a b = true ∨ le b a = true)
    (htrans : ∀ a b d, le a b = true → le b d = true → le a d = true)
    (l : List α) : (sortBy le l).Pairwise (fun a b => le a b = true) := by
  induction l with
  | nil => simp [sortBy]
  | cons x xs ih =>
    exact insertBy_sorted htotal htrans x ih

/-! ## Path names

`stemExt` mirrors `Path::file_stem`/`Path::extension` on a file name: the
extension is the portion after the last dot, absent when there is no dot or
when the only dot leads the name.
-/

def lastPart : List (List Char) → List Char
  | [] => []
  | [x] => x
  | _ :: y :: xs => lastPart (y :: xs)

def stemExt (name : String) : String × Option String :=
  match splitOnChar '.' name.data with
  | [] => (name, none)
  | [_] => (name, none)
  | p :: q :: rest =>
    if p = [] ∧ rest = [] then (name, none)
    else
      (⟨List.intercalate ['.'] ((p :: q :: rest).dropLast)⟩,
        some ⟨lastPart (p :: q :: rest)⟩)

example : stemExt "1.0.0.sql" = ("1.0.0", some "sql") := by decide
example : stemExt "notaversion.sql" = ("notaversion", some "sql") := by decide
example : stemExt "README" = ("README", none) := by decide
example : stemExt ".sql" = (".sql", none) := by decide
example : Version.parse "1.2.3" = .ok ⟨1, 2, 3, [], []⟩ := rfl
example : Version.parse "1.0.0-alpha.1+build.01" =
    .ok ⟨1, 0, 0, ["alpha", "1"], ["build", "01"]⟩ := rfl
example : (Version.parse "notaversion").isOk = false := by decide
example : (Version.parse "1.0").isOk = false := by decide
example : (Version.parse "01.0.0").isOk = false := by decide
example : Version.cmp ⟨1, 0, 0, ["alpha"], []⟩ ⟨1, 0, 0, [], []⟩ = .lt := by decide
example : Version.cmp ⟨1, 0, 0, ["2"], []⟩ ⟨1, 0, 0, ["10"], []⟩ = .lt := by decide
example : Version.cmp ⟨1, 0, 0, ["10"], []⟩ ⟨1, 0, 0, ["a"], []⟩ = .lt := by decide
example : Version.render ⟨1, 2, 3, ["rc", "1"], ["x"]⟩ = "1.2.3-rc.1+x" := by decide

/-! ## The engine model

`Database`'s external effects are an environment `Env` fixing the outcome of
every database/process call (`none` = the call succeeds, `some e` = it fails
with message `e`) plus the state of the migration directory, and a state `St`
carrying the persisted version marker (the `data.schema_version()` function's
value, `none` when the function is absent), whether the api schema exists,
and a trace of the migration scripts run and version markers written.
-/

def API_SCHEMA_DIRECTORY : String := "api"

def DATA_SCHEMA : String := "data"

def MIGRATION_DIRECTORY : String := "migration"

structure Entry where
  name : String
  isFile : Bool
deriving DecidableEq

inductive FsNode where
  | missing
  | notDir
  | dir (entries : List Entry)

inductive Event where
  | ranScript (path : String)
  | wrote (version : Version)
deriving DecidableEq

structure St where
  marker : Option Version
  apiExists : Bool
  trace : List Event
deriving DecidableEq

structure Env where
  apiSchema : String
  sqlDir : String
  readErr : Option String
  dropErr : String → Option String
  createErr : String → Option String
  fileErr : String → Option String
  writeErr : Version → Option String
  fs : FsNode

def migrationDir (env : Env) : String :=
  env.sqlDir ++ "/" ++ MIGRATION_DIRECTORY

def entryPath (env : Env) (e : Entry) : String :=
  migrationDir env ++ "/" ++ e.name

def downgradeMsg (schemaVersion app : Version) : String :=
  "schema version (" ++ schemaVersion.render ++
    ") is greater than app version (" ++ app.render ++
    "): downgrades are not supported"

def setVersionFailureMsg (version : Version) (e : String) : String :=
  "failed to set schema version to " ++ version.render ++ ": " ++ e

def dropSchemaFailureMsg (schema e : String) : String :=
  "failed to drop schema '" ++ schema ++ "': " ++ e

def createSchemaFailureMsg (schema e : String) : String :=
  "failed to create schema '" ++ schema ++ "': " ++ e

def invalidVersionMsg (path err : String) : String :=
  "file name contains invalid version '" ++ path ++ "': " ++ err

def applyFailureMsg (path err : String) : String :=
  "failed to apply migration script '" ++ path ++ "': " ++ err

def notDirectoryMsg (path : String) : String := path ++ ": not a directory"

def isSqlFile (e : Entry) : Bool :=
  e.isFile && ((stemExt e.name).2 == some "sql")

/-- `Database::schema_version` (lines 405-435): read the persisted marker;
`none` when the `schema_version` function is absent. A failing read (a failed
query, unexpected catalog output or an unparseable marker) is collapsed into
`Env.readErr`. -/
def schema_version (env : Env) (st : St) : Except String (Option Version) :=
  match env.readErr with
  | some e => .error e
  | none => .ok st.marker

/-- `Database::set_schema_version` (lines 437-453): (re)define the
`data.schema_version()` function to return `version`'s text. -/
def set_schema_version (env : Env) (version : Version) (st : St) :
    St × Except String Unit :=
  match env.writeErr version with
  | some e =>
    (st, .error (setVersionFailureMsg version e))
  | none =>
    ({ st with marker := some version, trace := st.trace ++ [.wrote version] },
      .ok ())

/-- `Database::drop_schema` (lines 216-226). Only the api schema's presence
is tracked in `St`, so dropping any other schema leaves the tracked state
unchanged. -/
def drop_schema (env : Env) (schema : String) (st : St) :
    St × Except String Unit :=
  match env.dropErr schema with
  | some e =>
    (st, .error (dropSchemaFailureMsg schema e))
  | none =>
    (if schema = env.apiSchema then { st with apiExists := false } else st,
      .ok ())

def drop_api_schema (env : Env) (st : St) : St × Except String Unit :=
  drop_schema env env.apiSchema st

/-- `Database::create_schema` (lines 196-206). -/
def create_schema (env : Env) (schema : String) (st : St) :
    St × Except String Unit :=
  match env.createErr schema with
  | some e =>
    (st, .error (createSchemaFailureMsg schema e))
  | none =>
    (if schema = env.apiSchema then { st with apiExists := true } else st,
      .ok ())

def create_api_schema (env : Env) (st : St) : St × Except String Unit :=
  create_schema env env.apiSchema st

/-- The directory-scan loop of `Database::migrate_data` (lines 272-328):
skip entries that are not regular files with the `sql` extension, parse each
remaining file's stem as a version (an unparseable stem aborts the whole
scan naming the path), skip versions the schema version exceeds and versions
not below the target, and keep the rest in directory order. -/
def collectMigrations (env : Env) (schemaVersion app : Version) :
    List Entry → Except String (List (Version × String))
  | [] => .ok []
  | e :: rest =>
    if isSqlFile e = false then
      collectMigrations env schemaVersion app rest
    else
      match Version.parse (stemExt e.name).1 with
      | .error err => .error (invalidVersionMsg (entryPath env e) err)
      | .ok fileVersion =>
        if Version.cmp schemaVersion fileVersion = .gt then
          collectMigrations env schemaVersion app rest
        else if Version.cmp fileVersion app = .lt then do
          let ms ← collectMigrations env schemaVersion app rest
          .ok ((fileVersion, entryPath env e) :: ms)
        else collectMigrations env schemaVersion app rest

def migLe (a b : Version × String) : Bool :=
  !(Version.cmp a.1 b.1 == Ordering.gt)

/-- `migrations.sort_by(|a, b| a.0.cmp(&b.0))` (line 344): a stable sort
ascending by version. -/
def sortMigrations (ms : List (Version × String)) : List (Version × String) :=
  sortBy migLe ms

/-- The resolution performed by `migrate_data`: scan, then sort. -/
def resolveMigrations (env : Env) (schemaVersion app : Version)
    (entries : List Entry) : Except String (List (Version × String)) :=
  (collectMigrations env schemaVersion app entries).map sortMigrations

/-- `iter.peek()` of the application loop: the next pending migration's
version, or the target app version when none remains. -/
def nextVersion (app : Version) : List (Version × String) → Version
  | [] => app
  | (v, _) :: _ => v

/-- The application loop of `Database::migrate_data` (lines 349-375): run
each script in order; after a script succeeds, persist the next pending
migration's version, or the app version when none remains. -/
def applyMigrations (env : Env) (app : Version) :
    List (Version × String) → St → St × Except String Unit
  | [], st => (st, .ok ())
  | (_, path) :: rest, st =>
    match env.fileErr path with
    | some e =>
      ({ st with trace := st.trace ++ [.ranScript path] },
        .error (applyFailureMsg path e))
    | none =>
      match set_schema_version env (nextVersion app rest)
          { st with trace := st.trace ++ [.ranScript path] } with
      | (st2, .error e) => (st2, .error e)
      | (st2, .ok _) => applyMigrations env app rest st2

/-- `Database::migrate_data` (lines 236-378). -/
def migrate_data (env : Env) (app : Version) (st : St) :
    St × Except String Unit :=
  match schema_version env st with
  | .error e => (st, .error e)
  | .ok persisted =>
    let schemaVersion := persisted.getD DEFAULT_VERSION
    if schemaVersion = app then (st, .ok ())
    else if Version.cmp schemaVersion app = .gt then
      (st, .error (downgradeMsg schemaVersion app))
    else
      match env.fs with
      | .missing => (st, .ok ())
      | .notDir => (st, .error (notDirectoryMsg (migrationDir env)))
      | .dir entries =>
        match collectMigrations env schemaVersion app entries with
        | .error e => (st, .error e)
        | .ok ms =>
          if ms.isEmpty then (st, .ok ())
          else applyMigrations env app (sortMigrations ms) st

/-- `Database::update` (lines 455-466): create the api schema, run the
canonical `api.sql` script, then persist the app version. -/
def update (env : Env) (app : Version) (st : St) : St × Except String Unit :=
  match create_api_schema env st with
  | (st1, .error e) => (st1, .error e)
  | (st1, .ok _) =>
    match env.fileErr (env.sqlDir ++ "/" ++ API_SCHEMA_DIRECTORY ++ ".sql") with
    | some e => (st1, .error e)
    | none => set_schema_version env app st1

/-- `Database::migrate` (lines 118-124). -/
def migrate (env : Env) (app : Version) (st : St) : St × Except String Unit :=
  match drop_api_schema env st with
  | (st1, .error e) => (st1, .error e)
  | (st1, .ok _) =>
    match migrate_data env app st1 with
    | (st2, .error e) => (st2, .error e)
    | (st2, .ok _) => update env app st2

/-- `Database::check_schema_version` (lines 63-79). -/
def check_schema_version (env : Env) (app : Version) (st : St) :
    St × Except String Unit :=
  match schema_version env st with
  | .error e => (st, .error e)
  | .ok (some version) =>
    if version = app then (st, .ok ()) else migrate env app st
  | .ok none => migrate env app st

/-! ## The process contract

`Database::exec` (lines 148-186), with the child process's behavior made
explicit: it may fail to spawn, fail while being awaited, or complete with
an exit code and captured output streams (already lossily UTF-8 decoded). -/

inductive ProcOutcome where
  | spawnFailed (err : String)
  | waitFailed (err : String)
  | completed (code : Nat) (stdout stderr : String)
deriving DecidableEq

/-- Unix `ExitStatus` display for an exited process. -/
def statusDisplay (code : Nat) : String := "exit status: " ++ toString code

def spawnFailureMsg (program err : String) : String :=
  "failed to spawn child process '" ++ program ++ "': " ++ err

def waitFailureMsg (program err : String) : String :=
  "failed to run program '" ++ program ++ "': " ++ err

def nonZeroExitMsg (program : String) (code : Nat) (stderr : String) : String :=
  "program '" ++ program ++ "' failed: " ++ statusDisplay code ++ ": " ++
    strTrim stderr

def exec (program : String) (outcome : ProcOutcome) : Except String String :=
  match outcome with
  | .spawnFailed err => .error (spawnFailureMsg program err)
  | .waitFailed err => .error (waitFailureMsg program err)
  | .completed code stdout stderr =>
    if code = 0 then .ok (strTrim stdout)
    else .error (nonZeroExitMsg program code stderr)

/-! ## The schema-version existence query

`Database::schema_version` (lines 405-423) issues the catalog query below
and treats output `t` as "the marker function exists". `pg_proc` rows carry
the function's name and its schema (namespace); the query's `WHERE` clause
is the name test alone. -/

def schemaVersionExistsQuery : String :=
  "SELECT exists(SELECT * FROM pg_proc WHERE proname = 'schema_version')"

structure PgProcRow where
  pronamespace : String
  proname : String
deriving DecidableEq

/-- The predicate the issued query evaluates over the catalog: some row's
`proname` is `schema_version`, in whatever schema. -/
def schemaVersionCheck (catalog : List PgProcRow) : Bool :=
  catalog.any (fun r => r.proname == "schema_version")

/-- Following the spec's words ("queries whether a specific schema_version
function exists in the data schema"): the check restricted to the data
schema, for comparison with `schemaVersionCheck`. -/
def schemaVersionCheckSpec (catalog : List PgProcRow) : Bool :=
  catalog.any
    (fun r => r.pronamespace == DATA_SCHEMA && r.proname == "schema_version")

/-! ## Shared facts about the engine -/

theorem versionCmp_gt_ne {v app : Version} (hgt : Version.cmp v app = .gt) :
    v ≠ app := by
  intro h
  subst h
  rw [versionCmp_laws.refl v] at hgt
  cases hgt

theorem migrateData_downgrade_eq (env : Env) (app v : Version) (st : St)
    (hread : env.readErr = none) (hm : st.marker = some v)
    (hgt : Version.cmp v app = .gt) :
    migrate_data env app st = (st, .error (downgradeMsg v app)) := by
  have hne : ¬ (v = app) := versionCmp_gt_ne hgt
  unfold migrate_data schema_version
  rw [hread, hm]
  simp only [Option.getD_some, if_neg hne, if_pos hgt]

theorem update_ok_marker (env : Env) (app : Version) (st : St)
    (h : (update env app st).2 = .ok ()) :
    (update env app st).1.marker = some app := by
  unfold update create_api_schema create_schema set_schema_version at h ⊢
  cases hc : env.createErr env.apiSchema <;> simp only [hc] at h ⊢
  cases hf : env.fileErr (env.sqlDir ++ "/" ++ API_SCHEMA_DIRECTORY ++ ".sql") <;>
    simp only [hf] at h ⊢
  cases hw : env.writeErr app <;> simp only [hw] at h ⊢
  all_goals exact absurd h (by simp)

/-- The events a full, successful run of the application loop appends: each
script's run followed by the write of the next pending version (or the
target), in order. -/
def plannedEvents (app : Version) : List (Version × String) → List Event
  | [] => []
  | (_, p) :: rest =>
    .ranScript p :: .wrote (nextVersion app rest) :: plannedEvents app rest

theorem applyMigrations_ok (env : Env) (app : Version) :
    ∀ (ms : List (Version × String)) (st : St),
      (applyMigrations env app ms st).2 = .ok () →
      (applyMigrations env app ms st).1.trace =
          st.trace ++ plannedEvents app ms ∧
        (ms ≠ [] → (applyMigrations env app ms st).1.marker = some app) := by
  intro ms
  induction ms with
  | nil =>
    intro st _
    exact ⟨by simp [applyMigrations, plannedEvents], fun hne => absurd rfl hne⟩
  | cons x rest ih =>
    obtain ⟨xv, xp⟩ := x
    intro st h
    unfold applyMigrations set_schema_version at h ⊢
    cases hf : env.fileErr xp <;> simp only [hf] at h ⊢
    · cases hw : env.writeErr (nextVersion app rest) <;> simp only [hw] at h ⊢
      · cases rest with
        | nil =>
          simp only [applyMigrations] at h ⊢
          constructor
          · simp [plannedEvents, nextVersion]
          · intro _
            rfl
        | cons y ys =>
          have hrec := ih _ h
          constructor
          · rw [hrec.1]
            simp [plannedEvents]
          · intro _
            exact hrec.2 (by simp)
      · exact absurd h (by simp)
    · exact absurd h (by simp)

/-! ## Concrete fixtures for witnesses and counterexamples -/

def v100 : Version := ⟨1, 0, 0, [], []⟩

def v110 : Version := ⟨1, 1, 0, [], []⟩

def v120 : Version := ⟨1, 2, 0, [], []⟩

def v130 : Version := ⟨1, 3, 0, [], []⟩

def v200 : Version := ⟨2, 0, 0, [], []⟩

def okEnv : Env :=
  { apiSchema := "admin", sqlDir := "sql", readErr := none,
    dropErr := fun _ => none, createErr := fun _ => none,
    fileErr := fun _ => none, writeErr := fun _ => none, fs := .missing }

def st0 : St := { marker := none, apiExists := true, trace := [] }

def stv (v : Version) : St := { marker := some v, apiExists := true, trace := [] }

/-! ## The claims -/

/-- C2: in every state whose persisted schema version is strictly greater
than the target application version, `migrate_data` returns the downgrade
error and leaves the state exactly as it was: the directory scan and the
script application are never reached, so no migration script is executed. -/
theorem migrateData_rejects_downgrade (env : Env) (app v : Version) (st : St)
    (hread : env.readErr = none) (hm : st.marker = some v)
    (hgt : Version.cmp v app = .gt) :
    migrate_data env app st = (st, .error (downgradeMsg v app)) :=
  migrateData_downgrade_eq env app v st hread hm hgt

theorem migrateData_rejects_downgrade_witness :
    okEnv.readErr = none ∧ (stv v200).marker = some v200 ∧
      Version.cmp v200 v100 = .gt ∧
      migrate_data okEnv v100 (stv v200) =
        (stv v200, .error (downgradeMsg v200 v100)) :=
  ⟨rfl, rfl, by decide,
    migrateData_rejects_downgrade okEnv v100 v200 (stv v200) rfl rfl (by decide)⟩

/-- C3: whenever the migrate operation completes successfully, the version
marker persisted via `set_schema_version` equals the application version
exactly (the final step of `update` writes it). -/
theorem migrate_sets_app_version (env : Env) (app : Version) (st : St)
    (h : (migrate env app st).2 = .ok ()) :
    (migrate env app st).1.marker = some app := by
  unfold migrate at h ⊢
  cases hd : drop_api_schema env st with
  | mk st1 r1 =>
    simp only [hd] at h ⊢
    cases r1 with
    | error e => simp at h
    | ok _ =>
      cases hm : migrate_data env app st1 with
      | mk st2 r2 =>
        simp only [hm] at h ⊢
        cases r2 with
        | error e => simp at h
        | ok _ => exact update_ok_marker env app st2 h

theorem migrate_sets_app_version_witness :
    (migrate okEnv v100 st0).2 = .ok () ∧
      (migrate okEnv v100 st0).1.marker = some v100 :=
  ⟨rfl, migrate_sets_app_version okEnv v100 st0 rfl⟩

/-- C5: `check_schema_version` reads the persisted version; when it is
present and equal to the application version it performs no further action,
and in every other case (present-but-different or uninitialized) it runs
the migrate operation. -/
theorem check_schema_version_spec (env : Env) (app : Version) (st : St)
    (hread : env.readErr = none) :
    (st.marker = some app → check_schema_version env app st = (st, .ok ())) ∧
      (st.marker ≠ some app →
        check_schema_version env app st = migrate env app st) := by
  unfold check_schema_version schema_version
  rw [hread]
  constructor
  · intro h
    rw [h]
    simp
  · intro h
    cases hm : st.marker with
    | none => simp
    | some v =>
      rw [hm] at h
      have hv : ¬ (v = app) := fun he => h (by rw [he])
      simp [hv]

theorem check_schema_version_spec_witness :
    check_schema_version okEnv v100 (stv v100) = (stv v100, .ok ()) ∧
      check_schema_version okEnv v100 st0 = migrate okEnv v100 st0 :=
  ⟨(check_schema_version_spec okEnv v100 (stv v100) rfl).1 rfl,
    (check_schema_version_spec okEnv v100 st0 rfl).2 (by decide)⟩

/-- C6: a migration directory that does not exist yields an empty migration
set and success: `migrate_data` returns `ok` with the state untouched (no
script run, no marker written), provided execution reaches the directory
check at all (the version read succeeds and no downgrade is rejected). -/
theorem migrateData_missing_dir (env : Env) (app : Version) (st : St)
    (hfs : env.fs = .missing) (hread : env.readErr = none)
    (hnd : Version.cmp (st.marker.getD DEFAULT_VERSION) app ≠ .gt) :
    migrate_data env app st = (st, .ok ()) := by
  unfold migrate_data schema_version
  rw [hread]
  by_cases he : st.marker.getD DEFAULT_VERSION = app
  · simp [he]
  · simp [he, hnd, hfs]

theorem migrateData_missing_dir_witness :
    okEnv.fs = .missing ∧ migrate_data okEnv v100 st0 = (st0, .ok ()) :=
  ⟨rfl, migrateData_missing_dir okEnv v100 st0 rfl rfl (by decide)⟩

/-- C10: `migrate` drops the api schema before it reads the persisted
version or performs the downgrade check, so a rejected downgrade fails with
the api schema already dropped — the database state is not left unchanged
on that error. -/
theorem migrate_downgrade_after_drop (env : Env) (app v : Version) (st : St)
    (hdrop : env.dropErr env.apiSchema = none) (hread : env.readErr = none)
    (hm : st.marker = some v) (hgt : Version.cmp v app = .gt) :
    migrate env app st =
      ({ st with apiExists := false }, .error (downgradeMsg v app)) := by
  have hd := migrateData_downgrade_eq env app v { st with apiExists := false }
    hread (by simpa using hm) hgt
  unfold migrate drop_api_schema drop_schema
  simp only [hdrop, eq_self_iff_true, if_true, hd]

theorem migrate_downgrade_after_drop_witness :
    migrate okEnv v100 (stv v200) =
      ({ stv v200 with apiExists := false }, .error (downgradeMsg v200 v100)) ∧
      (stv v200).apiExists = true :=
  ⟨migrate_downgrade_after_drop okEnv v100 v200 (stv v200) rfl rfl rfl
      (by decide), rfl⟩

/-- C8: the command runner's contract — on exit status zero `exec` returns
the trimmed decoded standard output; on a non-zero exit status it returns
an error built from the program name, the displayed exit status and the
trimmed captured standard error; spawn failures and wait failures are
distinct error cases, each naming the program. -/
theorem exec_contract (program stdout stderr e₁ e₂ : String) (code : Nat) :
    exec program (.completed 0 stdout stderr) = .ok (strTrim stdout) ∧
      exec program (.completed (code + 1) stdout stderr) =
        .error (nonZeroExitMsg program (code + 1) stderr) ∧
      exec program (.spawnFailed e₁) = .error (spawnFailureMsg program e₁) ∧
      exec program (.waitFailed e₂) = .error (waitFailureMsg program e₂) ∧
      spawnFailureMsg program e₁ ≠ waitFailureMsg program e₁ := by
  refine ⟨rfl, by simp [exec], rfl, rfl, ?_⟩
  intro h
  have hlen := congrArg String.length h
  simp only [spawnFailureMsg, waitFailureMsg, String.length_append] at hlen
  have h1 : ("failed to spawn child process '" : String).length = 31 := rfl
  have h2 : ("failed to run program '" : String).length = 23 := rfl
  rw [h1, h2] at hlen
  omega

/-- C9 counterexample: the catalog lookup issued by `schema_version`
(the query `schemaVersionExistsQuery`, testing `proname` alone) matches a
`schema_version` function in any schema: on a catalog whose only
`schema_version` function lives in schema `public`, not in the data schema,
the issued check answers true while the data-schema-restricted check of the
spec's words answers false — so the lookup does not restrict the check to
the data schema. -/
theorem schemaVersionCheck_not_schema_restricted :
    schemaVersionCheck [⟨"public", "schema_version"⟩] = true ∧
      schemaVersionCheckSpec [⟨"public", "schema_version"⟩] = false := by
  decide

/-- C9 (amended): `read_version` determines initialization by querying
whether some function named `schema_version` exists in ANY schema — the
issued catalog lookup tests only the function name and does not restrict
the match to the data schema. -/
theorem schemaVersionCheck_any_schema (catalog : List PgProcRow) :
    schemaVersionCheck catalog = true ↔
      ∃ r ∈ catalog, r.proname = "schema_version" := by
  simp [schemaVersionCheck]

def failSecondEnv : Env :=
  { okEnv with
      fileErr := fun p => if p = "b.sql" then some "syntax error" else none }

/-- C4 counterexample: with pending migrations `1.1.0` (script `a.sql`) and
`1.2.0` (script `b.sql`), target `1.3.0`, and `b.sql` failing, the loop
persists marker `1.2.0` right after `a.sql` succeeds — before `b.sql` runs —
and `b.sql` then fails, so the run ends with the marker holding the version
of a script that never fully succeeded. This refutes the claim's clause that
the marker is never set to the version of a script that has not fully
succeeded. -/
theorem applyMigrations_marker_ahead :
    (applyMigrations failSecondEnv v130 [(v110, "a.sql"), (v120, "b.sql")]
        st0).1.marker = some v120 ∧
      (applyMigrations failSecondEnv v130 [(v110, "a.sql"), (v120, "b.sql")]
          st0).2 = .error (applyFailureMsg "b.sql" "syntax error") ∧
      (applyMigrations failSecondEnv v130 [(v110, "a.sql"), (v120, "b.sql")]
          st0).1.trace =
        [.ranScript "a.sql", .wrote v120, .ranScript "b.sql"] :=
  ⟨rfl, rfl, rfl⟩

/-- C4 (amended): during application of a non-empty ordered migration list,
after each script succeeds the persisted marker is set to the next pending
migration's version if one remains and otherwise to the target application
version, and every marker write is the immediate consequence of a script's
success (on a fully successful run the appended event trace alternates
run, write, run, write, ...); the value written, however, is the next
PENDING script's version — a script that has not yet run — so on failure
the marker may name a script that never succeeded. -/
theorem applyMigrations_bookkeeping (env : Env) (app : Version)
    (ms : List (Version × String)) (st : St)
    (h : (applyMigrations env app ms st).2 = .ok ()) :
    (applyMigrations env app ms st).1.trace =
        st.trace ++ plannedEvents app ms ∧
      (ms ≠ [] → (applyMigrations env app ms st).1.marker = some app) :=
  applyMigrations_ok env app ms st h

theorem applyMigrations_bookkeeping_witness :
    (applyMigrations okEnv v130 [(v110, "a.sql"), (v120, "b.sql")] st0).2 =
        .ok () ∧
      (applyMigrations okEnv v130 [(v110, "a.sql"), (v120, "b.sql")]
          st0).1.trace =
        [.ranScript "a.sql", .wrote v120, .ranScript "b.sql", .wrote v130] := by
  have h := applyMigrations_bookkeeping okEnv v130
    [(v110, "a.sql"), (v120, "b.sql")] st0 rfl
  exact ⟨rfl, by simpa [st0, plannedEvents, nextVersion] using h.1⟩

/-! ## Facts about migration resolution -/

theorem migLe_iff {a b : Version × String} :
    migLe a b = true ↔ Version.cmp a.1 b.1 ≠ .gt := by
  cases hv : Version.cmp a.1 b.1 <;> simp [migLe, hv] <;> decide

theorem migLe_total (a b : Version × String) :
    migLe a b = true ∨ migLe b a = true := by
  rw [migLe_iff, migLe_iff]
  exact versionCmp_laws.total a.1 b.1

theorem migLe_trans (a b d : Version × String) (h₁ : migLe a b = true)
    (h₂ : migLe b d = true) : migLe a d = true := by
  rw [migLe_iff] at *
  exact versionCmp_laws.le_trans h₁ h₂

theorem sortMigrations_perm (ms : List (Version × String)) :
    (sortMigrations ms).Perm ms := sortBy_perm migLe ms

theorem sortMigrations_sorted (ms : List (Version × String)) :
    (sortMigrations ms).Pairwise (fun a b => migLe a b = true) :=
  sortBy_sorted migLe_total migLe_trans ms

theorem parse_isOk_exists {s : String} (h : (Version.parse s).isOk = true) :
    ∃ v, Version.parse s = .ok v := by
  cases hv : Version.parse s with
  | ok v => exact ⟨v, rfl⟩
  | error e => rw [hv] at h; cases h

/-- The scan loop, characterized: when every SQL file's stem parses, the
scan succeeds and collects exactly the parsed versions not below the schema
version and strictly below the target, with their paths; distinct parses
give pairwise-distinct collected versions. -/
theorem collect_spec (env : Env) (sv app : Version) :
    ∀ (entries : List Entry),
      (∀ e ∈ entries, isSqlFile e = true →
        (Version.parse (stemExt e.name).1).isOk = true) →
      entries.Pairwise (fun e₁ e₂ => isSqlFile e₁ = true →
        isSqlFile e₂ = true →
        Version.parse (stemExt e₁.name).1 ≠ Version.parse (stemExt e₂.name).1) →
      ∃ ms, collectMigrations env sv app entries = .ok ms ∧
        ms.Pairwise (fun a b => a.1 ≠ b.1) ∧
        ∀ vp, vp ∈ ms ↔ ∃ e ∈ entries, isSqlFile e = true ∧
          Version.parse (stemExt e.name).1 = .ok vp.1 ∧
          vp.2 = entryPath env e ∧
          Version.cmp sv vp.1 ≠ .gt ∧ Version.cmp vp.1 app = .lt := by
  intro entries
  induction entries with
  | nil =>
    intro _ _
    exact ⟨[], rfl, List.Pairwise.nil, by simp⟩
  | cons e rest ih =>
    intro hall hdist
    have hallr : ∀ e' ∈ rest, isSqlFile e' = true →
        (Version.parse (stemExt e'.name).1).isOk = true :=
      fun e' he' => hall e' (List.mem_cons_of_mem e he')
    have hdiste := (List.pairwise_cons.mp hdist).1
    have hdistr := (List.pairwise_cons.mp hdist).2
    obtain ⟨ms, hok, hnedup, hmem⟩ := ih hallr hdistr
    by_cases hsql : isSqlFile e = true
    case neg =>
      have hsql' : isSqlFile e = false := by
        cases hv : isSqlFile e
        · rfl
        · exact absurd hv hsql
      refine ⟨ms, ?_, hnedup, ?_⟩
      · simpa [collectMigrations, hsql'] using hok
      · intro vp
        rw [hmem vp]
        constructor
        · rintro ⟨e', he', hprops⟩
          exact ⟨e', List.mem_cons_of_mem e he', hprops⟩
        · rintro ⟨e', he', hq, hprops⟩
          rcases List.mem_cons.mp he' with he'' | he''
          · subst he''
            rw [hsql'] at hq
            cases hq
          · exact ⟨e', he'', hq, hprops⟩
    case pos =>
      obtain ⟨fv, hp⟩ :=
        parse_isOk_exists (hall e (List.mem_cons_self e rest) hsql)
      by_cases hskip : Version.cmp sv fv = .gt
      · refine ⟨ms, ?_, hnedup, ?_⟩
        · simpa [collectMigrations, hsql, hp, hskip] using hok
        · intro vp
          rw [hmem vp]
          constructor
          · rintro ⟨e', he', hprops⟩
            exact ⟨e', List.mem_cons_of_mem e he', hprops⟩
          · rintro ⟨e', he', hq, hpe, hpath, hlow, hhigh⟩
            rcases List.mem_cons.mp he' with he'' | he''
            · subst he''
              rw [hp] at hpe
              have : fv = vp.1 := Except.ok.inj hpe
              rw [← this] at hlow
              exact absurd hskip hlow
            · exact ⟨e', he'', hq, hpe, hpath, hlow, hhigh⟩
      · by_cases hkeep : Version.cmp fv app = .lt
        · refine ⟨(fv, entryPath env e) :: ms, ?_, ?_, ?_⟩
          · simp [collectMigrations, hsql, hp, hskip, hkeep, hok]
            rfl
          · refine List.pairwise_cons.mpr ⟨?_, hnedup⟩
            intro b hb
            obtain ⟨e', he', hsql', hpe', _, _, _⟩ := (hmem b).mp hb
            intro heq
            have heq' : fv = b.1 := heq
            exact hdiste e' he' hsql hsql' (by rw [hp, hpe', heq'])
          · intro vp
            constructor
            · intro hv
              rcases List.mem_cons.mp hv with hv' | hv'
              · subst hv'
                exact ⟨e, List.mem_cons_self e rest, hsql, hp, rfl, hskip,
                  hkeep⟩
              · obtain ⟨e', he', hprops⟩ := (hmem vp).mp hv'
                exact ⟨e', List.mem_cons_of_mem e he', hprops⟩
            · rintro ⟨e', he', hq, hpe, hpath, hlow, hhigh⟩
              rcases List.mem_cons.mp he' with he'' | he''
              · subst he''
                rw [hp] at hpe
                have h1 : fv = vp.1 := Except.ok.inj hpe
                obtain ⟨vp1, vp2⟩ := vp
                have h1' : fv = vp1 := h1
                have hpath' : vp2 = entryPath env e' := hpath
                rw [← h1', hpath']
                exact List.mem_cons_self _ _
              · right
                exact (hmem vp).mpr ⟨e', he'', hq, hpe, hpath, hlow, hhigh⟩
        · refine ⟨ms, ?_, hnedup, ?_⟩
          · simpa [collectMigrations, hsql, hp, hskip, hkeep] using hok
          · intro vp
            rw [hmem vp]
            constructor
            · rintro ⟨e', he', hprops⟩
              exact ⟨e', List.mem_cons_of_mem e he', hprops⟩
            · rintro ⟨e', he', hq, hpe, hpath, hlow, hhigh⟩
              rcases List.mem_cons.mp he' with he'' | he''
              · subst he''
                rw [hp] at hpe
                have : fv = vp.1 := Except.ok.inj hpe
                rw [← this] at hhigh
                exact absurd hhigh hkeep
              · exact ⟨e', he'', hq, hpe, hpath, hlow, hhigh⟩

/-- C1 counterexample: with current schema version `1.0.0`, target `2.0.0`
and the single migration file `1.0.0.sql` — whose version is ≤ the current
schema version — the resolution KEEPS the file instead of excluding it:
`migrate_data` skips only files whose version the schema version strictly
exceeds (`schema_version > file_version`, line 310), so a file equal to the
current version stays. -/
theorem resolveMigrations_keeps_equal_version :
    resolveMigrations okEnv v100 v200 [⟨"1.0.0.sql", true⟩] =
      .ok [(v100, "sql/migration/1.0.0.sql")] ∧
      Version.cmp v100 v100 = .eq :=
  ⟨rfl, by decide⟩

/-- C1 (amended): for every set of migration files whose names parse as
valid, distinct semantic versions, the migration resolution in
`migrate_data` returns them sorted strictly ascending by version, excluding
every file whose version is strictly below the current schema version and
every file whose version is ≥ the target application version (a file whose
version equals the current schema version is kept and re-run on resume,
since the persisted marker names the next pending script). -/
theorem resolveMigrations_sorted_filtered (env : Env) (sv app : Version)
    (entries : List Entry)
    (hall : ∀ e ∈ entries, isSqlFile e = true →
      (Version.parse (stemExt e.name).1).isOk = true)
    (hdist : entries.Pairwise (fun e₁ e₂ => isSqlFile e₁ = true →
      isSqlFile e₂ = true →
      Version.parse (stemExt e₁.name).1 ≠ Version.parse (stemExt e₂.name).1)) :
    ∃ ms, resolveMigrations env sv app entries = .ok ms ∧
      ms.Pairwise (fun a b => Version.cmp a.1 b.1 = .lt) ∧
      ∀ vp, vp ∈ ms ↔ ∃ e ∈ entries, isSqlFile e = true ∧
        Version.parse (stemExt e.name).1 = .ok vp.1 ∧
        vp.2 = entryPath env e ∧
        Version.cmp sv vp.1 ≠ .gt ∧ Version.cmp vp.1 app = .lt := by
  obtain ⟨ms0, hok, hnedup, hmem⟩ := collect_spec env sv app entries hall hdist
  refine ⟨sortMigrations ms0, ?_, ?_, ?_⟩
  · unfold resolveMigrations
    rw [hok]
    rfl
  · have hsorted := sortMigrations_sorted ms0
    have hne : (sortMigrations ms0).Pairwise (fun a b => a.1 ≠ b.1) :=
      ((sortMigrations_perm ms0).pairwise_iff
        (fun {x y} h => Ne.symm h)).mpr hnedup
    refine (hsorted.and hne).imp (fun {a b} hab => ?_)
    obtain ⟨h1, h2⟩ := hab
    have h1' := migLe_iff.mp h1
    cases hv : Version.cmp a.1 b.1
    · rfl
    · exact absurd (versionCmp_eq_iff.mp hv) h2
    · exact absurd hv h1'
  · intro vp
    rw [(sortMigrations_perm ms0).mem_iff]
    exact hmem vp

theorem resolveMigrations_sorted_filtered_witness :
    resolveMigrations okEnv v100 v200
        [⟨"2.0.0.sql", true⟩, ⟨"1.1.0.sql", true⟩, ⟨"notes.txt", true⟩,
          ⟨"0.5.0.sql", true⟩] =
      .ok [(v110, "sql/migration/1.1.0.sql")] ∧
      ∃ ms, resolveMigrations okEnv v100 v200
          [⟨"2.0.0.sql", true⟩, ⟨"1.1.0.sql", true⟩, ⟨"notes.txt", true⟩,
            ⟨"0.5.0.sql", true⟩] = .ok ms ∧
        ms.Pairwise (fun a b => Version.cmp a.1 b.1 = .lt) ∧
        ∀ vp, vp ∈ ms ↔ ∃ e ∈ ([⟨"2.0.0.sql", true⟩, ⟨"1.1.0.sql", true⟩,
            ⟨"notes.txt", true⟩, ⟨"0.5.0.sql", true⟩] : List Entry),
          isSqlFile e = true ∧
          Version.parse (stemExt e.name).1 = .ok vp.1 ∧
          vp.2 = entryPath okEnv e ∧
          Version.cmp v100 vp.1 ≠ .gt ∧ Version.cmp vp.1 v200 = .lt :=
  ⟨rfl,
    resolveMigrations_sorted_filtered okEnv v100 v200
      [⟨"2.0.0.sql", true⟩, ⟨"1.1.0.sql", true⟩, ⟨"notes.txt", true⟩,
        ⟨"0.5.0.sql", true⟩] (by decide) (by decide)⟩

theorem collect_error_of_bad (env : Env) (sv app : Version) :
    ∀ entries : List Entry,
      (∃ e ∈ entries, isSqlFile e = true ∧
        (Version.parse (stemExt e.name).1).isOk = false) →
      ∃ e ∈ entries, isSqlFile e = true ∧
        (Version.parse (stemExt e.name).1).isOk = false ∧
        ∃ err, collectMigrations env sv app entries =
          .error (invalidVersionMsg (entryPath env e) err) := by
  intro entries
  induction entries with
  | nil =>
    rintro ⟨e, he, _⟩
    exact absurd he (List.not_mem_nil e)
  | cons e rest ih =>
    rintro ⟨e', he', hsql', hbad'⟩
    by_cases hsql : isSqlFile e = true
    · cases hp : Version.parse (stemExt e.name).1 with
      | error err =>
        refine ⟨e, List.mem_cons_self e rest, hsql, ?_, err, ?_⟩
        · rw [hp]; rfl
        · simp [collectMigrations, hsql, hp]
      | ok fv =>
        have hrest : ∃ e₂ ∈ rest, isSqlFile e₂ = true ∧
            (Version.parse (stemExt e₂.name).1).isOk = false := by
          rcases List.mem_cons.mp he' with he'' | he''
          · subst he''
            rw [hp] at hbad'
            cases hbad'
          · exact ⟨e', he'', hsql', hbad'⟩
        obtain ⟨e₂, he₂, hsql₂, hbad₂, err, herr⟩ := ih hrest
        refine ⟨e₂, List.mem_cons_of_mem e he₂, hsql₂, hbad₂, err, ?_⟩
        by_cases hskip : Version.cmp sv fv = .gt
        · simp [collectMigrations, hsql, hp, hskip, herr]
        · by_cases hkeep : Version.cmp fv app = .lt
          · simp [collectMigrations, hsql, hp, hskip, hkeep, herr]
            rfl
          · simp [collectMigrations, hsql, hp, hskip, hkeep, herr]
    · have hsql0 : isSqlFile e = false := by
        cases hv : isSqlFile e
        · rfl
        · exact absurd hv hsql
      have hrest : ∃ e₂ ∈ rest, isSqlFile e₂ = true ∧
          (Version.parse (stemExt e₂.name).1).isOk = false := by
        rcases List.mem_cons.mp he' with he'' | he''
        · subst he''
          rw [hsql0] at hsql'
          cases hsql'
        · exact ⟨e', he'', hsql', hbad'⟩
      obtain ⟨e₂, he₂, hsql₂, hbad₂, err, herr⟩ := ih hrest
      exact ⟨e₂, List.mem_cons_of_mem e he₂, hsql₂, hbad₂, err,
        by simp [collectMigrations, hsql0, herr]⟩

/-- C7: when the migration directory holds a regular file with the `sql`
extension whose stem does not parse as a semantic version, the whole
migration operation fails with an error naming the offending path (provided
execution reaches the scan: the version read succeeds, the versions differ
and no downgrade is rejected). -/
theorem migrateData_invalid_name (env : Env) (app : Version) (st : St)
    (entries : List Entry) (hfs : env.fs = .dir entries)
    (hread : env.readErr = none)
    (hne : st.marker.getD DEFAULT_VERSION ≠ app)
    (hnd : Version.cmp (st.marker.getD DEFAULT_VERSION) app ≠ .gt)
    (hbad : ∃ e ∈ entries, isSqlFile e = true ∧
      (Version.parse (stemExt e.name).1).isOk = false) :
    ∃ e ∈ entries, isSqlFile e = true ∧
      (Version.parse (stemExt e.name).1).isOk = false ∧
      ∃ err, migrate_data env app st =
        (st, .error (invalidVersionMsg (entryPath env e) err)) := by
  obtain ⟨e, he, hsql, hbadE, err, herr⟩ :=
    collect_error_of_bad env (st.marker.getD DEFAULT_VERSION) app entries hbad
  refine ⟨e, he, hsql, hbadE, err, ?_⟩
  unfold migrate_data schema_version
  rw [hread]
  simp [hne, hnd, hfs, herr]

def badEnv : Env := { okEnv with fs := .dir [⟨"notaversion.sql", true⟩] }

theorem migrateData_invalid_name_witness :
    ∃ e ∈ ([⟨"notaversion.sql", true⟩] : List Entry), isSqlFile e = true ∧
      (Version.parse (stemExt e.name).1).isOk = false ∧
      ∃ err, migrate_data badEnv v100 st0 =
        (st0, .error (invalidVersionMsg (entryPath badEnv e) err)) :=
  migrateData_invalid_name badEnv v100 st0 [⟨"notaversion.sql", true⟩] rfl rfl
    (by decide) (by decide) (by decide)
